import Mathlib

/-!
Verification of the image upload service (`internal/service/service.go` and
collaborators) against its natural-language specification.

Strings are modelled as `List Char` (Go strings are byte/rune sequences; all
inputs relevant here are ASCII).  Raw image bytes are modelled as `List Nat`.
External collaborators (the Go standard-library image codecs, the nfnt resize
library, and the S3 client) are modelled as oracles collected in an `Env`
record; the orchestration logic itself is translated directly from the Go
source.  Every call the service makes to the store, the resizer or the
encoders is recorded in an event trace so that claims about "no store writes
occur" are statable.
-/

set_option autoImplicit false

/-- Model of `models.CompressSpec`: a requested output dimension pair
(Go `int` fields modelled as `Int`). -/
structure CompressSpec where
  width : Int
  height : Int
deriving DecidableEq

/-- Model of `models.ImageResult`: dimensions and URL of one stored artifact. -/
structure ImageResult where
  width : Int
  height : Int
  url : List Char
deriving DecidableEq

/-- Model of `models.UploadResponse`. -/
structure UploadResponse where
  originalImage : ImageResult
  compressedImages : List ImageResult
  message : List Char
deriving DecidableEq

/-- A decoded raster, modelled by its pixel bounds
(`img.Bounds().Dx()` / `Dy()` of the Go `image.Image`). -/
structure Img where
  dx : Nat
  dy : Nat
deriving DecidableEq

/-- One observable call the service makes to an external collaborator.
`putOp key contentType ok` records a call to `S3Repository.UploadFile`
(an attempted store write) together with its outcome. -/
inductive Event where
  | resized (w h : Int) : Event
  | encoded (format : List Char) (ok : Bool) : Event
  | putOp (key : List Char) (contentType : List Char) (ok : Bool) : Event
deriving DecidableEq

/-- Oracles for the external collaborators of the service:
`decode` models `image.Decode` (raster bounds plus format tag, or an error),
`jpegEncode` / `pngEncode` model `jpeg.Encode` (quality 85) and `png.Encode`
(`none` = encode error, `some bytes` = encoded output),
`putOk n` models the outcome of the n-th `UploadFile` call of the request
(call counting starts at 0 with the original upload), `putErr n` the error
text of that call when it fails, and `urlOf` the pure URL construction
`UploadFile` performs from the store configuration and the key. -/
structure Env where
  decode : List Nat → Except (List Char) (Img × List Char)
  jpegEncode : Img → Option (List Nat)
  pngEncode : Img → Option (List Nat)
  putOk : Nat → Bool
  putErr : Nat → List Char
  urlOf : List Char → List Char

/-- Model of Go's `uint(w)` conversion applied to an `int`
(two's-complement wrap into `[0, 2^64)`). -/
def goUint (w : Int) : Nat := (w % (2 : Int) ^ 64).toNat

/-- Bounds-level model of `resize.Resize(width, height, img, resize.Lanczos3)`
from the external nfnt/resize library: a target dimension of 0 is replaced by
an aspect-ratio-preserving value computed as `uint(0.7 + old/scale)` (modelled
here in exact integer arithmetic; the float expression agrees on the inputs
used in this development), a (0,0) target returns the source bounds, and two
positive targets are honored exactly (stretching, no aspect preservation). -/
def resizeModel (width height : Nat) (img : Img) : Img :=
  if width = 0 then
    if height = 0 then img
    else { dx := (7 * img.dy + 10 * img.dx * height) / (10 * img.dy), dy := height }
  else
    if height = 0 then { dx := width, dy := (7 * img.dx + 10 * img.dy * width) / (10 * img.dx) }
    else { dx := width, dy := height }

/-- Scan of the final slash-free segment of `path` in reverse, accumulating
the characters seen so far after the last dot; helper for `goExt`. -/
def extAux : List Char → List Char → List Char
  | [], _ => []
  | c :: rest, acc =>
    if c = '/' then []
    else if c = '.' then '.' :: acc
    else extAux rest (c :: acc)

/-- Model of Go `filepath.Ext`: the suffix beginning at the final dot in the
final slash-separated element of the path; empty if there is no dot. -/
def goExt (path : List Char) : List Char := extAux path.reverse []

/-- Model of Go `strings.ToLower` (ASCII case mapping; all inputs in this
development are ASCII, where the Go Unicode mapping agrees). -/
def goToLower (s : List Char) : List Char := s.map Char.toLower

/-- Model of Go `strings.TrimSuffix`: drops `suffix` from the end of `s`
when present, otherwise returns `s` unchanged. -/
def goTrimSuffix (s suffix : List Char) : List Char :=
  if suffix.isSuffixOf s then s.take (s.length - suffix.length) else s

/-- The value of `fileExt` in `ProcessAndUploadImage`:
`strings.ToLower(filepath.Ext(filename))`. -/
def goLowerExt (f : List Char) : List Char := goToLower (goExt f)

/-- The value of `fileNameWithoutExt` in `ProcessAndUploadImage`:
`strings.TrimSuffix(filename, fileExt)`. -/
def goBase (f : List Char) : List Char := goTrimSuffix f (goLowerExt f)

/-- The storage key of the original artifact:
`fmt.Sprintf("%s_%d%s", fileNameWithoutExt, timestamp, fileExt)`. -/
def goOriginalKey (f : List Char) (ts : Nat) : List Char :=
  goBase f ++ "_".data ++ (Nat.repr ts).data ++ goLowerExt f

/-- The storage key of a variant artifact:
`fmt.Sprintf("%s_%dx%d_%d%s", fileNameWithoutExt, spec.Width, spec.Height, timestamp, fileExt)`. -/
def goVariantKey (f : List Char) (w h : Int) (ts : Nat) : List Char :=
  goBase f ++ "_".data ++ (Int.repr w).data ++ "x".data ++ (Int.repr h).data
    ++ "_".data ++ (Nat.repr ts).data ++ goLowerExt f

/-- Model of `getContentType` (service.go): a switch on the format tag. -/
def getContentType (format : List Char) : List Char :=
  if format = "jpeg".data then "image/jpeg".data
  else if format = "png".data then "image/png".data
  else "application/octet-stream".data

/-- The encoder branch of the per-spec loop:
`if format == "jpeg" { jpeg.Encode(...) } else { png.Encode(...) }`. -/
def encodeResult (env : Env) (format : List Char) (raster : Img) : Option (List Nat) :=
  if format = "jpeg".data then env.jpegEncode raster else env.pngEncode raster

/-- The `ImageResult` appended to `response.CompressedImages` for a spec whose
resize, encode and upload all succeed: the caller-requested width and height
together with the URL returned by `UploadFile`. -/
def variantResult (env : Env) (f : List Char) (ts : Nat) (s : CompressSpec) : ImageResult :=
  { width := s.width, height := s.height
    url := env.urlOf (goVariantKey f s.width s.height ts) }

/-- The per-spec loop of `ProcessAndUploadImage`: for each spec, resize,
encode (logging and skipping the spec on failure), derive the variant key and
upload (logging and skipping on failure).  `callIdx` numbers the `UploadFile`
calls of the request; a failed upload still consumes a call index, a failed
encode performs no store call.  Returns the collected `CompressedImages`
entries and the event trace of the loop. -/
def processSpecs (env : Env) (img : Img) (format : List Char) (f : List Char) (ts : Nat) :
    List CompressSpec → Nat → List ImageResult × List Event
  | [], _ => ([], [])
  | spec :: rest, callIdx =>
    match encodeResult env format (resizeModel (goUint spec.width) (goUint spec.height) img) with
    | none =>
      let tail := processSpecs env img format f ts rest callIdx
      (tail.1, Event.resized spec.width spec.height :: Event.encoded format false :: tail.2)
    | some _ =>
      if env.putOk callIdx then
        let tail := processSpecs env img format f ts rest (callIdx + 1)
        (variantResult env f ts spec :: tail.1,
          Event.resized spec.width spec.height :: Event.encoded format true ::
            Event.putOp (goVariantKey f spec.width spec.height ts) (getContentType format) true
            :: tail.2)
      else
        let tail := processSpecs env img format f ts rest (callIdx + 1)
        (tail.1,
          Event.resized spec.width spec.height :: Event.encoded format true ::
            Event.putOp (goVariantKey f spec.width spec.height ts) (getContentType format) false
            :: tail.2)

/-- Model of `ImageService.ProcessAndUploadImage`: decode the bytes (aborting
with a wrapped decode error), derive the original key from the filename and
the request timestamp, upload the original raw bytes (aborting with a wrapped
upload error), then run the per-spec loop and assemble the response.  The
second component is the trace of external calls made by the request. -/
def processAndUploadImage (env : Env) (fileBytes : List Nat) (filename : List Char)
    (compressSizes : List CompressSpec) (ts : Nat) :
    Except (List Char) UploadResponse × List Event :=
  match env.decode fileBytes with
  | Except.error e => (Except.error ("failed to decode image: ".data ++ e), [])
  | Except.ok (img, format) =>
    if env.putOk 0 then
      let tail := processSpecs env img format filename ts compressSizes 1
      (Except.ok
        { originalImage :=
            { width := img.dx, height := img.dy
              url := env.urlOf (goOriginalKey filename ts) }
          compressedImages := tail.1
          message := "Image uploaded and processed successfully".data },
        Event.putOp (goOriginalKey filename ts) (getContentType format) true :: tail.2)
    else
      (Except.error ("failed to upload original image: ".data ++ env.putErr 0),
        [Event.putOp (goOriginalKey filename ts) (getContentType format) false])

/-- Keys of all `UploadFile` calls recorded in a trace, in call order. -/
def putKeys (evs : List Event) : List (List Char) :=
  evs.filterMap fun e =>
    match e with
    | Event.putOp k _ _ => some k
    | _ => none

/-- Split a character list on every occurrence of `sep`, keeping empty
segments; model of Go `strings.Split` with a one-character separator. -/
def splitOnChar (sep : Char) : List Char → List (List Char)
  | [] => [[]]
  | c :: rest =>
    match splitOnChar sep rest with
    | [] => [[c]]
    | h :: t => if c = sep then [] :: h :: t else (c :: h) :: t

/-- Decimal value of a digit list (most significant first). -/
def digitsVal (s : List Char) : Nat :=
  s.foldl (fun a c => 10 * a + (c.toNat - 48)) 0

/-- Result of scanning the value `v` into a Go 64-bit `int` whose previous
value was 0: the value itself when it is in `[-2^63, 2^63 - 1]`; otherwise
`strconv.ParseInt` reports a range error, `Sscanf` returns it without
assigning, and the variable keeps its zero value. -/
def fitInt64 (v : Int) : Int :=
  if - (2 ^ 63) ≤ v ∧ v ≤ 2 ^ 63 - 1 then v else 0

/-- Model of `fmt.Sscanf(s, "%d", &x)` with `x` a Go `int` (64-bit) and the
error ignored, as in `GetImageInfo`: skip leading whitespace, accept an
optional sign, read the maximal run of decimal digits and parse it as a
64-bit integer; when there is no digit, or the value overflows the 64-bit
range, the scan errors and the scanned variable keeps its zero value. -/
def scanInt (s : List Char) : Int :=
  match s.dropWhile Char.isWhitespace with
  | '-' :: rest => fitInt64 (- Int.ofNat (digitsVal (rest.takeWhile Char.isDigit)))
  | '+' :: rest => fitInt64 (Int.ofNat (digitsVal (rest.takeWhile Char.isDigit)))
  | t => fitInt64 (Int.ofNat (digitsVal (t.takeWhile Char.isDigit)))

/-- Model of `ImageService.GetImageInfo` together with the repository's
`GetFile` (s3_repository.go): `GetFile` returns `(false, err)` when
`HeadObject` fails and `(true, nil)` otherwise, so the service's
`err != nil || !exists` guard fails exactly when `HeadObject` succeeded.
`headErr` is the `HeadObject` error, `none` on success.  On success the
service builds the URL, splits the filename on underscores and, when there
are at least two parts whose second-to-last splits on `x` into exactly two
pieces both scanning to positive integers, returns those dimensions;
otherwise it returns zero dimensions with the URL. -/
def getImageInfo (headErr : Option (List Char)) (filename : List Char) :
    Except (List Char) ImageResult :=
  match headErr with
  | some _ => Except.error "image not found".data
  | none =>
    let imageURL := "https://s3-url/".data ++ filename
    let parts := splitOnChar '_' filename
    if 2 ≤ parts.length then
      let dimParts := splitOnChar 'x' (parts.getD (parts.length - 2) [])
      if dimParts.length = 2 then
        let width := scanInt (dimParts.getD 0 [])
        let height := scanInt (dimParts.getD 1 [])
        if 0 < width ∧ 0 < height then
          Except.ok { width := width, height := height, url := imageURL }
        else
          Except.ok { width := 0, height := 0, url := imageURL }
      else
        Except.ok { width := 0, height := 0, url := imageURL }
    else
      Except.ok { width := 0, height := 0, url := imageURL }

/-- Basename in the sense of the specification's naming contract (§4.1):
"the filename with its extension stripped". -/
def specBasename (f : List Char) : List Char :=
  f.take (f.length - (goExt f).length)

/-- Original-artifact key as the specification's naming contract words it:
`<basename>_<timestampNanos><ext>` with `basename` the filename with its
extension stripped and `ext` the lower-cased original extension. -/
def specOriginalKey (f : List Char) (ts : Nat) : List Char :=
  specBasename f ++ "_".data ++ (Nat.repr ts).data ++ goLowerExt f

/-- Variant key as the specification's naming contract words it:
`<basename>_<w>x<h>_<timestampNanos><ext>`. -/
def specVariantKey (f : List Char) (w h : Int) (ts : Nat) : List Char :=
  specBasename f ++ "_".data ++ (Int.repr w).data ++ "x".data ++ (Int.repr h).data
    ++ "_".data ++ (Nat.repr ts).data ++ goLowerExt f

/-- Checker for a dimension segment of the literal form `<W>x<H>` with `W` and
`H` positive decimal numerals, as claim C10 words it. -/
def isFormWxH (seg : List Char) : Bool :=
  match splitOnChar 'x' seg with
  | [a, b] =>
    (!a.isEmpty) && (!b.isEmpty) && a.all Char.isDigit && b.all Char.isDigit
      && decide (0 < digitsVal a) && decide (0 < digitsVal b)
  | _ => false

/-- A 100×50 test raster used by the concrete scenarios below. -/
def testImg : Img := { dx := 100, dy := 50 }

/-- Concrete environment for test scenarios: every byte stream decodes to the
100×50 JPEG test raster, both encoders succeed (returning the raster bounds as
stand-in bytes), every store put succeeds, and URLs are the key appended to a
fixed bucket address. -/
def okEnv : Env where
  decode := fun _ => Except.ok (testImg, "jpeg".data)
  jpegEncode := fun i => some [i.dx, i.dy]
  pngEncode := fun i => some [i.dx, i.dy]
  putOk := fun _ => true
  putErr := fun _ => "putfail".data
  urlOf := fun k => "https://bucket.s3/".data ++ k

/-- Environment whose decoder rejects every byte stream. -/
def badDecodeEnv : Env :=
  { okEnv with decode := fun _ => Except.error "bad".data }

/-- Environment whose store rejects the first put (the original upload). -/
def badPut0Env : Env :=
  { okEnv with putOk := fun i => decide (i ≠ 0) }

/-- Environment whose store rejects exactly the third put of the request
(call index 2, i.e. the second variant upload when all encodes succeed). -/
def failThirdPutEnv : Env :=
  { okEnv with putOk := fun i => decide (i ≠ 2) }

/-! ### Supporting lemmas -/

/-- The result of `extAux l acc` is a suffix of `l.reverse ++ acc`. -/
theorem extAux_suffix : ∀ (l acc : List Char), ∃ pre, l.reverse ++ acc = pre ++ extAux l acc
  | [], acc => ⟨acc, by simp [extAux]⟩
  | c :: rest, acc => by
    by_cases h1 : c = '/'
    · exact ⟨(c :: rest).reverse ++ acc, by simp [extAux, h1]⟩
    · by_cases h2 : c = '.'
      · refine ⟨rest.reverse, ?_⟩
        subst h2
        simp [extAux, h1]
      · obtain ⟨pre, hp⟩ := extAux_suffix rest (c :: acc)
        refine ⟨pre, ?_⟩
        rw [extAux]
        simp only [if_neg h1, if_neg h2]
        rw [List.reverse_cons, List.append_assoc]
        simpa using hp

/-- `goExt f` is a suffix of `f`. -/
theorem goExt_suffix (f : List Char) : ∃ pre, f = pre ++ goExt f := by
  obtain ⟨pre, hp⟩ := extAux_suffix f.reverse []
  exact ⟨pre, by simpa [goExt] using hp⟩

/-- Taking everything but the suffix from an append recovers the front part. -/
theorem take_sub_length (pre suf : List Char) :
    (pre ++ suf).take ((pre ++ suf).length - suf.length) = pre := by
  rw [List.length_append, Nat.add_sub_cancel, List.take_left]

/-- `goTrimSuffix` on an actual suffix drops exactly that suffix. -/
theorem goTrimSuffix_append (pre suf : List Char) : goTrimSuffix (pre ++ suf) suf = pre := by
  have hs : suf.isSuffixOf (pre ++ suf) = true := by
    simp [List.isSuffixOf]
  rw [goTrimSuffix, if_pos hs, take_sub_length]

theorem goBase_eq_of_suffix (f pre e : List Char) (hp : f = pre ++ e)
    (hlow : goLowerExt f = e) : goBase f = pre := by
  show goTrimSuffix f (goLowerExt f) = pre
  rw [hlow, hp, goTrimSuffix_append]

theorem specBasename_eq_of_suffix (f pre e : List Char) (hp : f = pre ++ e)
    (he : goExt f = e) : specBasename f = pre := by
  show f.take (f.length - (goExt f).length) = pre
  rw [he, hp, take_sub_length]

/-- When the extension of `f` is already lower-case, the basename computed by
the code (`TrimSuffix` with the lower-cased extension) agrees with the
specification's "filename with its extension stripped". -/
theorem goBase_eq_specBasename (f : List Char) (hlow : goLowerExt f = goExt f) :
    goBase f = specBasename f := by
  obtain ⟨pre, hp⟩ := goExt_suffix f
  rw [goBase_eq_of_suffix f pre (goExt f) hp hlow,
    specBasename_eq_of_suffix f pre (goExt f) hp rfl]

/-- Encode success of one spec against a given raster and format: the branch
`jpeg.Encode` / `png.Encode` of the loop returns without error. -/
abbrev encOk (env : Env) (format : List Char) (img : Img) (s : CompressSpec) : Prop :=
  (encodeResult env format (resizeModel (goUint s.width) (goUint s.height) img)).isSome = true

/-- When every encode succeeds and every store put of the loop succeeds, the
loop collects one variant per spec in order, and performs one put per spec
with the derived variant key. -/
theorem processSpecs_all_ok (env : Env) (img : Img) (format f : List Char) (ts : Nat) :
    ∀ (specs : List CompressSpec) (c : Nat),
      (∀ s ∈ specs, encOk env format img s) →
      (∀ i, i < specs.length → env.putOk (c + i) = true) →
      (processSpecs env img format f ts specs c).1 = specs.map (variantResult env f ts) ∧
      putKeys (processSpecs env img format f ts specs c).2 =
        specs.map (fun s => goVariantKey f s.width s.height ts)
  | [], _, _, _ => by simp [processSpecs, putKeys]
  | s :: rest, c, henc, hput => by
    obtain ⟨b, hb⟩ := Option.isSome_iff_exists.mp (henc s (by simp))
    have hp0 : env.putOk c = true := by simpa using hput 0 (by simp)
    have ih := processSpecs_all_ok env img format f ts rest (c + 1)
      (fun x hx => henc x (by simp [hx]))
      (fun i hi => by
        have h := hput (i + 1) (by simpa using Nat.succ_lt_succ hi)
        rwa [show c + (i + 1) = c + 1 + i by omega] at h)
    simp [processSpecs, hb, hp0, putKeys, List.filterMap_cons] at ih ⊢
    exact ⟨ih.1, ih.2⟩

/-- When every encode succeeds and exactly the put with relative index `j`
fails (all others succeed), the loop collects the variants of every spec
except the j-th, in order. -/
theorem processSpecs_one_fail (env : Env) (img : Img) (format f : List Char) (ts : Nat) :
    ∀ (specs : List CompressSpec) (c j : Nat),
      (∀ s ∈ specs, encOk env format img s) →
      (∀ i, i < specs.length → env.putOk (c + i) = decide (i ≠ j)) →
      (processSpecs env img format f ts specs c).1 =
        (specs.eraseIdx j).map (variantResult env f ts)
  | [], _, j, _, _ => by simp [processSpecs]
  | s :: rest, c, 0, henc, hput => by
    obtain ⟨b, hb⟩ := Option.isSome_iff_exists.mp (henc s (by simp))
    have hp0 : env.putOk c = false := by simpa using hput 0 (by simp)
    have ih := (processSpecs_all_ok env img format f ts rest (c + 1)
      (fun x hx => henc x (by simp [hx]))
      (fun i hi => by
        have h := hput (i + 1) (by simpa using Nat.succ_lt_succ hi)
        rw [show c + (i + 1) = c + 1 + i by omega] at h
        simpa using h)).1
    simp [processSpecs, hb, hp0, ih, List.eraseIdx]
  | s :: rest, c, j + 1, henc, hput => by
    obtain ⟨b, hb⟩ := Option.isSome_iff_exists.mp (henc s (by simp))
    have hp0 : env.putOk c = true := by simpa using hput 0 (by simp)
    have ih := processSpecs_one_fail env img format f ts rest (c + 1) j
      (fun x hx => henc x (by simp [hx]))
      (fun i hi => by
        have h := hput (i + 1) (by simpa using Nat.succ_lt_succ hi)
        rw [show c + (i + 1) = c + 1 + i by omega] at h
        rwa [show (decide (i + 1 ≠ j + 1)) = decide (i ≠ j) from
          decide_eq_decide.mpr (by omega)] at h)
    simp [processSpecs, hb, hp0, ih, List.eraseIdx]

/-- Every store put recorded by the loop uses the variant key of one of the
specs of the list (derived from the shared filename and timestamp). -/
theorem processSpecs_putOp_mem (env : Env) (img : Img) (format f : List Char) (ts : Nat) :
    ∀ (specs : List CompressSpec) (c : Nat) (k ct : List Char) (b : Bool),
      Event.putOp k ct b ∈ (processSpecs env img format f ts specs c).2 →
      ∃ s ∈ specs, k = goVariantKey f s.width s.height ts
  | [], _, k, ct, b => by simp [processSpecs]
  | s :: rest, c, k, ct, b => by
    intro hm
    cases hb : encodeResult env format (resizeModel (goUint s.width) (goUint s.height) img) with
    | none =>
      simp [processSpecs, hb] at hm
      obtain ⟨x, hx, hk⟩ := processSpecs_putOp_mem env img format f ts rest c k ct b hm
      exact ⟨x, by simp [hx], hk⟩
    | some bs =>
      cases hp : env.putOk c with
      | true =>
        simp [processSpecs, hb, hp] at hm
        rcases hm with ⟨hk, _, _⟩ | hm
        · exact ⟨s, by simp, hk⟩
        · obtain ⟨x, hx, hk⟩ := processSpecs_putOp_mem env img format f ts rest (c + 1) k ct b hm
          exact ⟨x, by simp [hx], hk⟩
      | false =>
        simp [processSpecs, hb, hp] at hm
        rcases hm with ⟨hk, _, _⟩ | hm
        · exact ⟨s, by simp, hk⟩
        · obtain ⟨x, hx, hk⟩ := processSpecs_putOp_mem env img format f ts rest (c + 1) k ct b hm
          exact ⟨x, by simp [hx], hk⟩

/-- Every entry the loop adds to `CompressedImages` is the `variantResult` of
one of the specs of the list. -/
theorem processSpecs_result_mem (env : Env) (img : Img) (format f : List Char) (ts : Nat) :
    ∀ (specs : List CompressSpec) (c : Nat) (v : ImageResult),
      v ∈ (processSpecs env img format f ts specs c).1 →
      ∃ s ∈ specs, v = variantResult env f ts s
  | [], _, v => by simp [processSpecs]
  | s :: rest, c, v => by
    intro hm
    cases hb : encodeResult env format (resizeModel (goUint s.width) (goUint s.height) img) with
    | none =>
      simp [processSpecs, hb] at hm
      obtain ⟨x, hx, hk⟩ := processSpecs_result_mem env img format f ts rest c v hm
      exact ⟨x, by simp [hx], hk⟩
    | some bs =>
      cases hp : env.putOk c with
      | true =>
        simp [processSpecs, hb, hp] at hm
        rcases hm with hv | hm
        · exact ⟨s, by simp, hv⟩
        · obtain ⟨x, hx, hk⟩ := processSpecs_result_mem env img format f ts rest (c + 1) v hm
          exact ⟨x, by simp [hx], hk⟩
      | false =>
        simp [processSpecs, hb, hp] at hm
        obtain ⟨x, hx, hk⟩ := processSpecs_result_mem env img format f ts rest (c + 1) v hm
        exact ⟨x, by simp [hx], hk⟩

/-! ### Claims -/

/-- C2: for every input whose bytes fail to decode, `ProcessAndUploadImage`
returns a decode-class error (the wrapped `failed to decode image` error) and
performs no store writes at all: the trace of external calls is empty, so
neither the original nor any variant is uploaded and the store is unchanged. -/
theorem C2_decode_failure_no_store_writes (env : Env) (fb : List Nat) (f : List Char)
    (specs : List CompressSpec) (ts : Nat) (e : List Char)
    (hdec : env.decode fb = Except.error e) :
    (processAndUploadImage env fb f specs ts).1 =
      Except.error ("failed to decode image: ".data ++ e) ∧
    (processAndUploadImage env fb f specs ts).2 = [] := by
  simp [processAndUploadImage, hdec]

/-- Witness for C2 at a concrete environment whose decoder rejects the input. -/
theorem C2_witness :
    badDecodeEnv.decode [0] = Except.error "bad".data ∧
    (processAndUploadImage badDecodeEnv [0] "photo.jpg".data [⟨800, 600⟩] 5).1 =
      Except.error ("failed to decode image: ".data ++ "bad".data) ∧
    (processAndUploadImage badDecodeEnv [0] "photo.jpg".data [⟨800, 600⟩] 5).2 = [] :=
  ⟨rfl, C2_decode_failure_no_store_writes badDecodeEnv [0] "photo.jpg".data
    [⟨800, 600⟩] 5 "bad".data rfl⟩

/-- C3: when decoding succeeds but the store put of the original bytes fails,
`ProcessAndUploadImage` returns the wrapped `failed to upload original image`
error and the trace holds exactly the one failed original put: no resize, no
encode and no variant store write happens for any spec. -/
theorem C3_original_upload_failure_aborts (env : Env) (fb : List Nat) (f : List Char)
    (specs : List CompressSpec) (ts : Nat) (img : Img) (format : List Char)
    (hdec : env.decode fb = Except.ok (img, format))
    (hput : env.putOk 0 = false) :
    (processAndUploadImage env fb f specs ts).1 =
      Except.error ("failed to upload original image: ".data ++ env.putErr 0) ∧
    (processAndUploadImage env fb f specs ts).2 =
      [Event.putOp (goOriginalKey f ts) (getContentType format) false] := by
  simp [processAndUploadImage, hdec, hput]

/-- Witness for C3 at a concrete environment whose store rejects the first put. -/
theorem C3_witness :
    badPut0Env.decode [0] = Except.ok (testImg, "jpeg".data) ∧
    badPut0Env.putOk 0 = false ∧
    (processAndUploadImage badPut0Env [0] "photo.jpg".data [⟨800, 600⟩] 5).1 =
      Except.error ("failed to upload original image: ".data ++ badPut0Env.putErr 0) ∧
    (processAndUploadImage badPut0Env [0] "photo.jpg".data [⟨800, 600⟩] 5).2 =
      [Event.putOp (goOriginalKey "photo.jpg".data 5) (getContentType "jpeg".data) false] :=
  ⟨rfl, rfl,
    C3_original_upload_failure_aborts badPut0Env [0] "photo.jpg".data [⟨800, 600⟩] 5
      testImg "jpeg".data rfl rfl⟩

/-- C8: the derived content type is `image/jpeg` for the tag `jpeg`,
`image/png` for the tag `png`, and `application/octet-stream` for every
other format tag. -/
theorem C8_content_type :
    getContentType "jpeg".data = "image/jpeg".data ∧
    getContentType "png".data = "image/png".data ∧
    ∀ format : List Char, format ≠ "jpeg".data → format ≠ "png".data →
      getContentType format = "application/octet-stream".data := by
  refine ⟨by decide, by decide, fun format hj hp => ?_⟩
  simp [getContentType, hj, hp]

/-- Witness for C8 at the three concrete tags `jpeg`, `png` and `gif`. -/
theorem C8_witness :
    getContentType "gif".data = "application/octet-stream".data :=
  C8_content_type.2.2 "gif".data (by decide) (by decide)

/-- C9: with a decodable image and a successful original upload, an empty
spec list yields a non-error result whose variants list is empty and whose
original field is populated from the decoded raster, and the trace holds the
original upload as the only store write. -/
theorem C9_empty_spec_list (env : Env) (fb : List Nat) (f : List Char) (ts : Nat)
    (img : Img) (format : List Char)
    (hdec : env.decode fb = Except.ok (img, format))
    (hput : env.putOk 0 = true) :
    (processAndUploadImage env fb f [] ts).1 =
      Except.ok
        { originalImage :=
            { width := img.dx, height := img.dy, url := env.urlOf (goOriginalKey f ts) }
          compressedImages := []
          message := "Image uploaded and processed successfully".data } ∧
    (processAndUploadImage env fb f [] ts).2 =
      [Event.putOp (goOriginalKey f ts) (getContentType format) true] := by
  simp [processAndUploadImage, hdec, hput, processSpecs]

/-- Witness for C9 at a concrete all-success environment. -/
theorem C9_witness :
    okEnv.decode [0] = Except.ok (testImg, "jpeg".data) ∧
    okEnv.putOk 0 = true ∧
    (processAndUploadImage okEnv [0] "photo.jpg".data [] 5).1 =
      Except.ok
        { originalImage :=
            { width := testImg.dx, height := testImg.dy
              url := okEnv.urlOf (goOriginalKey "photo.jpg".data 5) }
          compressedImages := []
          message := "Image uploaded and processed successfully".data } ∧
    (processAndUploadImage okEnv [0] "photo.jpg".data [] 5).2 =
      [Event.putOp (goOriginalKey "photo.jpg".data 5) (getContentType "jpeg".data) true] :=
  ⟨rfl, rfl,
    C9_empty_spec_list okEnv [0] "photo.jpg".data 5 testImg "jpeg".data rfl rfl⟩

/-- C4: for every valid JPEG or PNG byte stream (a stream the decoder accepts
with tag `jpeg` or `png`) and every non-empty spec list, the returned result
has an original field whose width and height are the pixel bounds of the
decoded raster, and that original field is identical across runs with any
other spec list: it is independent of the caller-supplied spec values. -/
theorem C4_original_dimensions (env : Env) (fb : List Nat) (f : List Char) (ts : Nat)
    (img : Img) (format : List Char) (specs specs2 : List CompressSpec)
    (r r2 : UploadResponse)
    (hdec : env.decode fb = Except.ok (img, format))
    (_hfmt : format = "jpeg".data ∨ format = "png".data)
    (_hne : specs ≠ [])
    (hr : (processAndUploadImage env fb f specs ts).1 = Except.ok r)
    (hr2 : (processAndUploadImage env fb f specs2 ts).1 = Except.ok r2) :
    r.originalImage.width = (img.dx : Int) ∧
    r.originalImage.height = (img.dy : Int) ∧
    r.originalImage = r2.originalImage := by
  cases hput : env.putOk 0 with
  | false => simp [processAndUploadImage, hdec, hput] at hr
  | true =>
    simp [processAndUploadImage, hdec, hput] at hr hr2
    rw [← hr, ← hr2]
    exact ⟨rfl, rfl, rfl⟩

/-- Witness for C4 at a concrete environment and two different spec lists. -/
theorem C4_witness :
    ∃ r r2 : UploadResponse,
      (processAndUploadImage okEnv [0] "photo.jpg".data [⟨800, 600⟩] 5).1 = Except.ok r ∧
      (processAndUploadImage okEnv [0] "photo.jpg".data [⟨1, 2⟩, ⟨3, 4⟩] 5).1 = Except.ok r2 ∧
      r.originalImage.width = (testImg.dx : Int) ∧
      r.originalImage.height = (testImg.dy : Int) ∧
      r.originalImage = r2.originalImage := by
  refine ⟨_, _, rfl, rfl, ?_⟩
  exact C4_original_dimensions okEnv [0] "photo.jpg".data 5 testImg "jpeg".data
    [⟨800, 600⟩] [⟨1, 2⟩, ⟨3, 4⟩] _ _ rfl (Or.inl rfl) (by simp) rfl rfl

/-- C1: for a request with N specs (N>1) in which decode succeeds, the
original upload and every variant's resize, encode and store put succeed
except that exactly the j-th spec's store put fails, the service returns a
non-error result whose variants are exactly the N-1 entries of the
caller-supplied spec order with the j-th entry removed; the failed spec does
not abort processing of the remaining specs.  Store calls are numbered 0 for
the original and i+1 for the i-th spec (every encode succeeds, so call
indices align with spec positions). -/
theorem C1_single_put_failure_skips_one_variant (env : Env) (fb : List Nat)
    (f : List Char) (specs : List CompressSpec) (ts : Nat) (img : Img)
    (format : List Char) (j : Nat)
    (hdec : env.decode fb = Except.ok (img, format))
    (hN : 1 < specs.length) (hj : j < specs.length)
    (henc : ∀ s ∈ specs, encOk env format img s)
    (hput : ∀ i, i ≤ specs.length → env.putOk i = decide (i ≠ j + 1)) :
    ∃ r, (processAndUploadImage env fb f specs ts).1 = Except.ok r ∧
      r.compressedImages = (specs.eraseIdx j).map (variantResult env f ts) ∧
      r.compressedImages.length = specs.length - 1 := by
  have hp0 : env.putOk 0 = true := by simpa using hput 0 (by omega)
  have hmain := processSpecs_one_fail env img format f ts specs 1 j henc
    (fun i hi => by
      have h := hput (i + 1) (by omega)
      rw [show (1 : Nat) + i = i + 1 by omega]
      rwa [show (decide (i + 1 ≠ j + 1)) = decide (i ≠ j) from
        decide_eq_decide.mpr (by omega)] at h)
  refine ⟨UploadResponse.mk
      (ImageResult.mk img.dx img.dy (env.urlOf (goOriginalKey f ts)))
      ((specs.eraseIdx j).map (variantResult env f ts))
      "Image uploaded and processed successfully".data, ?_, rfl, ?_⟩
  · simp [processAndUploadImage, hdec, hp0, hmain]
  · show ((specs.eraseIdx j).map (variantResult env f ts)).length = specs.length - 1
    rw [List.length_map, List.length_eraseIdx, if_pos hj]

/-- Witness for C1: two specs, the second variant's put (call index 2) fails,
and the result keeps exactly the first variant. -/
theorem C1_witness :
    ∃ r, (processAndUploadImage failThirdPutEnv [0] "photo.jpg".data
        [⟨800, 600⟩, ⟨400, 300⟩] 5).1 = Except.ok r ∧
      r.compressedImages =
        (([⟨800, 600⟩, ⟨400, 300⟩] : List CompressSpec).eraseIdx 1).map
          (variantResult failThirdPutEnv "photo.jpg".data 5) ∧
      r.compressedImages.length = ([⟨800, 600⟩, ⟨400, 300⟩] : List CompressSpec).length - 1 :=
  C1_single_put_failure_skips_one_variant failThirdPutEnv [0] "photo.jpg".data
    [⟨800, 600⟩, ⟨400, 300⟩] 5 testImg "jpeg".data 1 rfl (by decide) (by decide)
    (by decide) (by decide)

/-- C5 counterexample: for the filename `PHOTO.JPG` the code's key is not
`<basename>_<timestampNanos><ext>` with the extension stripped.  The code
trims the lower-cased extension `.jpg`, which is not a suffix of
`PHOTO.JPG`, so nothing is stripped and the produced key keeps the full
filename, while the claimed formula strips the extension. -/
theorem C5_counterexample :
    goOriginalKey "PHOTO.JPG".data 5 = "PHOTO.JPG_5.jpg".data ∧
    specOriginalKey "PHOTO.JPG".data 5 = "PHOTO_5.jpg".data ∧
    goOriginalKey "PHOTO.JPG".data 5 ≠ specOriginalKey "PHOTO.JPG".data 5 ∧
    goVariantKey "PHOTO.JPG".data 800 600 5 = "PHOTO.JPG_800x600_5.jpg".data ∧
    goVariantKey "PHOTO.JPG".data 800 600 5 ≠ specVariantKey "PHOTO.JPG".data 800 600 5 := by
  decide

/-- C5 amended: when the filename's extension is already lower-case (so the
lower-cased extension the code trims is the actual extension), the original
key is `<basename>_<timestampNanos><ext>` and each variant key is
`<basename>_<w>x<h>_<timestampNanos><ext>` with the basename the filename
with its extension stripped and the extension lower-cased; moreover every
store put performed by a request carries either the original key or the
variant key of one of its specs, all derived from the single request
timestamp.  (For extensions containing upper-case letters nothing is
stripped and the key keeps the whole filename, per the counterexample.) -/
theorem C5_amended_key_scheme (f : List Char) (ts : Nat)
    (hlow : goLowerExt f = goExt f) :
    goOriginalKey f ts = specOriginalKey f ts ∧
    (∀ w h : Int, goVariantKey f w h ts = specVariantKey f w h ts) ∧
    (∀ (env : Env) (fb : List Nat) (specs : List CompressSpec) (k ct : List Char) (b : Bool),
      Event.putOp k ct b ∈ (processAndUploadImage env fb f specs ts).2 →
      k = goOriginalKey f ts ∨ ∃ s ∈ specs, k = goVariantKey f s.width s.height ts) := by
  have hb := goBase_eq_specBasename f hlow
  refine ⟨?_, fun w h => ?_, fun env fb specs k ct b hm => ?_⟩
  · rw [goOriginalKey, specOriginalKey, hb]
  · rw [goVariantKey, specVariantKey, hb]
  · revert hm
    unfold processAndUploadImage
    cases hdec : env.decode fb with
    | error e => intro hm; simp at hm
    | ok p =>
      obtain ⟨img, format⟩ := p
      cases hput : env.putOk 0 with
      | false =>
        intro hm
        simp at hm
        exact Or.inl hm.1
      | true =>
        intro hm
        simp at hm
        rcases hm with ⟨hk, _, _⟩ | hm
        · exact Or.inl hk
        · exact Or.inr (processSpecs_putOp_mem env img format f ts specs 1 k ct b hm)

/-- Witness for the amended C5 at the lower-case filename `photo.jpg`. -/
theorem C5_amended_witness :
    goOriginalKey "photo.jpg".data 5 = specOriginalKey "photo.jpg".data 5 ∧
    goVariantKey "photo.jpg".data 800 600 5 = specVariantKey "photo.jpg".data 800 600 5 :=
  ⟨(C5_amended_key_scheme "photo.jpg".data 5 (by decide)).1,
    (C5_amended_key_scheme "photo.jpg".data 5 (by decide)).2.1 800 600⟩

/-- Behaviour of `putKeys` on a put event at the head of a trace. -/
theorem putKeys_cons_putOp (k ct : List Char) (b : Bool) (l : List Event) :
    putKeys (Event.putOp k ct b :: l) = k :: putKeys l := by
  simp [putKeys, List.filterMap_cons]

/-- C6 counterexample: a request with two identical specs performs its two
variant store puts with the SAME storage key (the key depends only on the
basename, the dimensions and the shared request timestamp), so the two
artifacts are not stored under distinct keys — the second put overwrites the
first.  Both variants are nevertheless reported in the result. -/
theorem C6_counterexample :
    putKeys (processAndUploadImage okEnv [0] "photo.jpg".data
        [⟨800, 600⟩, ⟨800, 600⟩] 5).2 =
      ["photo_5.jpg".data, "photo_800x600_5.jpg".data, "photo_800x600_5.jpg".data] ∧
    ¬ (putKeys (processAndUploadImage okEnv [0] "photo.jpg".data
        [⟨800, 600⟩, ⟨800, 600⟩] 5).2).Nodup ∧
    ((processAndUploadImage okEnv [0] "photo.jpg".data
        [⟨800, 600⟩, ⟨800, 600⟩] 5).1.toOption.map
      (fun r => r.compressedImages.length)) = some 2 := by
  decide

/-- C6 amended: duplicate `(width,height)` specs are each processed and each
performs its own store put and contributes its own variant entry, but the two
puts use identical storage keys (timestamp is shared within the request and
the key depends only on basename, dimensions and timestamp), so they do not
produce independently stored artifacts: the later write overwrites the
earlier one under the store's overwrite semantics. -/
theorem C6_amended_duplicate_specs_collide (env : Env) (fb : List Nat) (f : List Char)
    (ts : Nat) (img : Img) (format : List Char) (s : CompressSpec)
    (hdec : env.decode fb = Except.ok (img, format))
    (henc : encOk env format img s)
    (hput : ∀ i, i ≤ 2 → env.putOk i = true) :
    ∃ r, (processAndUploadImage env fb f [s, s] ts).1 = Except.ok r ∧
      r.compressedImages = [variantResult env f ts s, variantResult env f ts s] ∧
      putKeys (processAndUploadImage env fb f [s, s] ts).2 =
        [goOriginalKey f ts, goVariantKey f s.width s.height ts,
          goVariantKey f s.width s.height ts] := by
  have hp0 : env.putOk 0 = true := hput 0 (by omega)
  have hall := processSpecs_all_ok env img format f ts [s, s] 1
    (by intro x hx; simp at hx; subst hx; exact henc)
    (fun i hi => hput (1 + i) (by simp at hi; omega))
  refine ⟨UploadResponse.mk
      (ImageResult.mk img.dx img.dy (env.urlOf (goOriginalKey f ts)))
      [variantResult env f ts s, variantResult env f ts s]
      "Image uploaded and processed successfully".data, ?_, rfl, ?_⟩
  · simp [processAndUploadImage, hdec, hp0, hall.1]
  · simp [processAndUploadImage, hdec, hp0, putKeys_cons_putOp, hall.2]

/-- Witness for the amended C6 at a concrete all-success environment. -/
theorem C6_amended_witness :
    ∃ r, (processAndUploadImage okEnv [0] "photo.jpg".data
        [⟨800, 600⟩, ⟨800, 600⟩] 5).1 = Except.ok r ∧
      r.compressedImages =
        [variantResult okEnv "photo.jpg".data 5 ⟨800, 600⟩,
          variantResult okEnv "photo.jpg".data 5 ⟨800, 600⟩] ∧
      putKeys (processAndUploadImage okEnv [0] "photo.jpg".data
          [⟨800, 600⟩, ⟨800, 600⟩] 5).2 =
        [goOriginalKey "photo.jpg".data 5,
          goVariantKey "photo.jpg".data 800 600 5,
          goVariantKey "photo.jpg".data 800 600 5] :=
  C6_amended_duplicate_specs_collide okEnv [0] "photo.jpg".data 5 testImg
    "jpeg".data ⟨800, 600⟩ rfl (by decide) (by decide)

/-- C7 counterexample: a spec of (0,0) (the handler performs no validation,
so it reaches the service) succeeds end to end: the nfnt resizer returns the
source raster unchanged, the 100×50 raster is encoded and uploaded, yet the
variant entry of the result reports width 0 and height 0 — the caller's
requested values, not the actual pixel dimensions of the stored artifact. -/
theorem C7_counterexample :
    (processAndUploadImage okEnv [0] "photo.jpg".data [⟨0, 0⟩] 5).1.toOption =
      some
        (UploadResponse.mk
          (ImageResult.mk 100 50 "https://bucket.s3/photo_5.jpg".data)
          [ImageResult.mk 0 0 "https://bucket.s3/photo_0x0_5.jpg".data]
          "Image uploaded and processed successfully".data) ∧
    resizeModel (goUint 0) (goUint 0) testImg = testImg ∧
    testImg.dx = 100 ∧ (0 : Int) ≠ (100 : Int) := by
  decide

/-- C7 amended: each successful variant's reported width and height are the
caller-requested spec values.  When both requested values are positive (and
within the 64-bit range of Go's `uint` conversion) the resized raster that
was encoded and uploaded has exactly those bounds, so the reported values do
equal the stored artifact's actual dimensions; for requested value 0 the
stored raster keeps aspect-derived or original dimensions while the result
still reports the zeros, per the counterexample. -/
theorem C7_amended_variant_dimensions (env : Env) (fb : List Nat) (f : List Char)
    (specs : List CompressSpec) (ts : Nat) (img : Img) (format : List Char)
    (r : UploadResponse)
    (hdec : env.decode fb = Except.ok (img, format))
    (hrun : (processAndUploadImage env fb f specs ts).1 = Except.ok r)
    (hpos : ∀ s ∈ specs, 0 < s.width ∧ s.width < 2 ^ 64 ∧
      0 < s.height ∧ s.height < 2 ^ 64) :
    ∀ v ∈ r.compressedImages, ∃ s ∈ specs,
      v.width = s.width ∧ v.height = s.height ∧
      ((resizeModel (goUint s.width) (goUint s.height) img).dx : Int) = s.width ∧
      ((resizeModel (goUint s.width) (goUint s.height) img).dy : Int) = s.height := by
  intro v hv
  cases hput : env.putOk 0 with
  | false => simp [processAndUploadImage, hdec, hput] at hrun
  | true =>
    simp [processAndUploadImage, hdec, hput] at hrun
    rw [← hrun] at hv
    obtain ⟨s, hs, hveq⟩ := processSpecs_result_mem env img format f ts specs 1 v hv
    obtain ⟨hw0, hw1, hh0, hh1⟩ := hpos s hs
    have hwu : goUint s.width = s.width.toNat := by
      rw [goUint, Int.emod_eq_of_lt (by omega) hw1]
    have hhu : goUint s.height = s.height.toNat := by
      rw [goUint, Int.emod_eq_of_lt (by omega) hh1]
    have hwz : s.width.toNat ≠ 0 := by omega
    have hhz : s.height.toNat ≠ 0 := by omega
    refine ⟨s, hs, ?_, ?_, ?_, ?_⟩ <;>
      simp [hveq, variantResult, hwu, hhu, resizeModel, hwz, hhz] <;> omega

/-- Witness for the amended C7 at a concrete run with one positive spec. -/
theorem C7_amended_witness :
    ∃ s ∈ ([⟨800, 600⟩] : List CompressSpec),
      (ImageResult.mk 800 600 "https://bucket.s3/photo_800x600_5.jpg".data).width = s.width ∧
      (ImageResult.mk 800 600 "https://bucket.s3/photo_800x600_5.jpg".data).height = s.height ∧
      ((resizeModel (goUint s.width) (goUint s.height) testImg).dx : Int) = s.width ∧
      ((resizeModel (goUint s.width) (goUint s.height) testImg).dy : Int) = s.height :=
  C7_amended_variant_dimensions okEnv [0] "photo.jpg".data [⟨800, 600⟩] 5 testImg
    "jpeg".data
    (UploadResponse.mk
      (ImageResult.mk 100 50 "https://bucket.s3/photo_5.jpg".data)
      [ImageResult.mk 800 600 "https://bucket.s3/photo_800x600_5.jpg".data]
      "Image uploaded and processed successfully".data)
    rfl rfl (by decide)
    (ImageResult.mk 800 600 "https://bucket.s3/photo_800x600_5.jpg".data) (by decide)

/-- The decimal digit characters. -/
def digitChars : List Char := "0123456789".data

/-- A decimal digit character is a digit, is not whitespace, and is none of
the characters `x`, `-`, `+` that steer `GetImageInfo`'s parsing. -/
theorem digitChar_facts (c : Char) (h : c ∈ digitChars) :
    c.isDigit = true ∧ c.isWhitespace = false ∧ c ≠ 'x' ∧ c ≠ '-' ∧ c ≠ '+' := by
  simp [digitChars] at h
  rcases h with rfl | rfl | rfl | rfl | rfl | rfl | rfl | rfl | rfl | rfl <;> decide

/-- `splitOnChar` never returns the empty list of segments. -/
theorem splitOnChar_ne_nil (sep : Char) : ∀ s, splitOnChar sep s ≠ []
  | [] => by simp [splitOnChar]
  | c :: rest => by
    cases h : splitOnChar sep rest with
    | nil => simp [splitOnChar, h]
    | cons a t => by_cases hc : c = sep <;> simp [splitOnChar, h, hc]

/-- Splitting a separator-free list yields that list as the one segment. -/
theorem splitOnChar_no_sep (sep : Char) : ∀ s, (∀ c ∈ s, c ≠ sep) → splitOnChar sep s = [s]
  | [], _ => rfl
  | c :: rest, h => by
    have ih := splitOnChar_no_sep sep rest (fun x hx => h x (by simp [hx]))
    simp [splitOnChar, ih, h c (by simp)]

/-- Splitting around one separator occurrence after a separator-free front
part peels off that front part as the first segment. -/
theorem splitOnChar_append_sep (sep : Char) :
    ∀ a b, (∀ c ∈ a, c ≠ sep) →
      splitOnChar sep (a ++ sep :: b) = a :: splitOnChar sep b
  | [], b, _ => by
    obtain ⟨h, t, hht⟩ : ∃ h t, splitOnChar sep b = h :: t := by
      cases hs : splitOnChar sep b with
      | nil => exact absurd hs (splitOnChar_ne_nil sep b)
      | cons h t => exact ⟨h, t, rfl⟩
    simp [splitOnChar, hht]
  | c :: a, b, h => by
    have ih := splitOnChar_append_sep sep a b (fun x hx => h x (by simp [hx]))
    simp [splitOnChar, ih, h c (by simp)]

/-- `takeWhile isDigit` keeps an all-digit list whole. -/
theorem takeWhile_digits : ∀ (l : List Char), (∀ c ∈ l, c ∈ digitChars) →
    l.takeWhile Char.isDigit = l
  | [], _ => rfl
  | c :: rest, h => by
    have ih := takeWhile_digits rest (fun x hx => h x (by simp [hx]))
    simp [List.takeWhile_cons, (digitChar_facts c (h c (by simp))).1, ih]

/-- On a non-empty all-digit string, the modelled `Sscanf %d` scans the full
digit run into the 64-bit variable. -/
theorem scanInt_digits_eq_fit (s : List Char) (hne : s ≠ [])
    (hd : ∀ c ∈ s, c ∈ digitChars) :
    scanInt s = fitInt64 (Int.ofNat (digitsVal s)) := by
  obtain ⟨c, rest, rfl⟩ := List.exists_cons_of_ne_nil hne
  obtain ⟨hdig, hws, hx, hdash, hplus⟩ := digitChar_facts c (hd c (by simp))
  have hw : (c :: rest).dropWhile Char.isWhitespace = c :: rest := by
    simp [List.dropWhile_cons, hws]
  have ht : (c :: rest).takeWhile Char.isDigit = c :: rest :=
    takeWhile_digits (c :: rest) hd
  unfold scanInt
  rw [hw]
  split
  · next r heq =>
    injection heq with h1 _
    exact absurd h1 hdash
  · next r heq =>
    injection heq with h1 _
    exact absurd h1 hplus
  · rw [ht]

/-- On a non-empty all-digit string whose value fits a 64-bit `int`, the
modelled `Sscanf %d` returns exactly the decimal value of the digits. -/
theorem scanInt_digits (s : List Char) (hne : s ≠ [])
    (hd : ∀ c ∈ s, c ∈ digitChars) (hbound : digitsVal s ≤ 2 ^ 63 - 1) :
    scanInt s = Int.ofNat (digitsVal s) := by
  rw [scanInt_digits_eq_fit s hne hd, fitInt64,
    if_pos (by constructor <;> simp only [Int.ofNat_eq_natCast] <;> omega)]

/-- On a non-empty all-digit string whose value exceeds the 64-bit `int`
range, the scan errors (ignored by `GetImageInfo`) and the variable keeps
its zero value. -/
theorem scanInt_digits_overflow (s : List Char) (hne : s ≠ [])
    (hd : ∀ c ∈ s, c ∈ digitChars) (hbig : 2 ^ 63 - 1 < digitsVal s) :
    scanInt s = 0 := by
  rw [scanInt_digits_eq_fit s hne hd, fitInt64,
    if_neg (by simp only [Int.ofNat_eq_natCast]; intro h; omega)]

/-- C10 counterexample: for the stored filename `photo_12ax34_1.jpg` the
second-to-last underscore segment `12ax34` is not of the form `<W>x<H>`
(its first half `12a` is not a numeral), so the claim requires width and
height 0 — but `Sscanf` reads the leading digits of each half and the code
returns width 12 and height 34. -/
theorem C10_counterexample :
    isFormWxH "12ax34".data = false ∧
    splitOnChar '_' "photo_12ax34_1.jpg".data =
      ["photo".data, "12ax34".data, "1.jpg".data] ∧
    getImageInfo none "photo_12ax34_1.jpg".data =
      Except.ok (ImageResult.mk 12 34 "https://s3-url/photo_12ax34_1.jpg".data) ∧
    (12 : Int) ≠ 0 := by
  exact ⟨by decide, by decide, rfl, by decide⟩

/-- C10 amended: when the existence check errors, `GetImageInfo` returns the
`image not found` error.  When it succeeds, the dimensions are obtained by
splitting the second-to-last underscore segment on `x` into exactly two
halves and scanning each half's leading optionally-signed decimal digits
into a 64-bit `int` (`Sscanf %d`; the variable keeps its zero value when
there is no digit or the value overflows): a segment `<W>x<H>` made of
decimal digit runs with positive values that fit a 64-bit `int` yields
exactly `(W, H)`, and in every other case — fewer than two underscore
segments, an `x`-split different from two halves, a non-positive scan of
either half, or an overflowing numeral (whose scan leaves 0) — both
dimensions are 0. -/
theorem C10_amended_get_image_info :
    (∀ (e f : List Char), getImageInfo (some e) f = Except.error "image not found".data) ∧
    (∀ (f wStr hStr : List Char),
      2 ≤ (splitOnChar '_' f).length →
      (splitOnChar '_' f).getD ((splitOnChar '_' f).length - 2) [] = wStr ++ 'x' :: hStr →
      wStr ≠ [] → hStr ≠ [] →
      (∀ c ∈ wStr, c ∈ digitChars) → (∀ c ∈ hStr, c ∈ digitChars) →
      0 < digitsVal wStr → 0 < digitsVal hStr →
      digitsVal wStr ≤ 2 ^ 63 - 1 → digitsVal hStr ≤ 2 ^ 63 - 1 →
      getImageInfo none f =
        Except.ok (ImageResult.mk (digitsVal wStr) (digitsVal hStr)
          ("https://s3-url/".data ++ f))) ∧
    (∀ f : List Char, (splitOnChar '_' f).length < 2 →
      getImageInfo none f =
        Except.ok (ImageResult.mk 0 0 ("https://s3-url/".data ++ f))) ∧
    (∀ f : List Char, 2 ≤ (splitOnChar '_' f).length →
      (splitOnChar 'x' ((splitOnChar '_' f).getD ((splitOnChar '_' f).length - 2) [])).length ≠ 2 →
      getImageInfo none f =
        Except.ok (ImageResult.mk 0 0 ("https://s3-url/".data ++ f))) ∧
    (∀ (f d0 d1 : List Char),
      2 ≤ (splitOnChar '_' f).length →
      splitOnChar 'x' ((splitOnChar '_' f).getD ((splitOnChar '_' f).length - 2) []) = [d0, d1] →
      (scanInt d0 ≤ 0 ∨ scanInt d1 ≤ 0) →
      getImageInfo none f =
        Except.ok (ImageResult.mk 0 0 ("https://s3-url/".data ++ f))) ∧
    (∀ (f wStr hStr : List Char),
      2 ≤ (splitOnChar '_' f).length →
      (splitOnChar '_' f).getD ((splitOnChar '_' f).length - 2) [] = wStr ++ 'x' :: hStr →
      wStr ≠ [] → hStr ≠ [] →
      (∀ c ∈ wStr, c ∈ digitChars) → (∀ c ∈ hStr, c ∈ digitChars) →
      2 ^ 63 - 1 < digitsVal wStr →
      getImageInfo none f =
        Except.ok (ImageResult.mk 0 0 ("https://s3-url/".data ++ f))) := by
  refine ⟨fun e f => rfl, ?_, ?_, ?_, ?_, ?_⟩
  · intro f wStr hStr hlen hseg hwne hhne hwd hhd hwpos hhpos hwb hhb
    have hsplit : splitOnChar 'x' (wStr ++ 'x' :: hStr) = [wStr, hStr] := by
      rw [splitOnChar_append_sep 'x' wStr hStr
          (fun c hc => (digitChar_facts c (hwd c hc)).2.2.1),
        splitOnChar_no_sep 'x' hStr
          (fun c hc => (digitChar_facts c (hhd c hc)).2.2.1)]
    have hscanw := scanInt_digits wStr hwne hwd hwb
    have hscanh := scanInt_digits hStr hhne hhd hhb
    simp only [getImageInfo, hseg, hsplit]
    rw [if_pos hlen]
    simp [hscanw, hscanh, hwpos, hhpos]
  · intro f hlen
    simp only [getImageInfo]
    rw [if_neg (by omega)]
  · intro f hlen hdim
    simp only [getImageInfo]
    rw [if_pos hlen, if_neg hdim]
  · intro f d0 d1 hlen hdim hnp
    simp only [getImageInfo, hdim]
    rw [if_pos hlen]
    have : ¬ (0 < scanInt d0 ∧ 0 < scanInt d1) := by omega
    simp [this]
  · intro f wStr hStr hlen hseg hwne hhne hwd hhd hbig
    have hsplit : splitOnChar 'x' (wStr ++ 'x' :: hStr) = [wStr, hStr] := by
      rw [splitOnChar_append_sep 'x' wStr hStr
          (fun c hc => (digitChar_facts c (hwd c hc)).2.2.1),
        splitOnChar_no_sep 'x' hStr
          (fun c hc => (digitChar_facts c (hhd c hc)).2.2.1)]
    have hscanw := scanInt_digits_overflow wStr hwne hwd hbig
    simp only [getImageInfo, hseg, hsplit]
    rw [if_pos hlen]
    simp [hscanw]

/-- Witness for the amended C10: the stored filename `photo_800x600_5.jpg`
parses to 800×600, and the overflowing numeral in
`photo_9999999999999999999x1_1.jpg` (value above `2^63 - 1`) leaves the
scanned variable 0, so the code reports 0×0; both with a successful
existence check. -/
theorem C10_amended_witness :
    getImageInfo none "photo_800x600_5.jpg".data =
      Except.ok (ImageResult.mk (digitsVal "800".data) (digitsVal "600".data)
        ("https://s3-url/".data ++ "photo_800x600_5.jpg".data)) ∧
    getImageInfo none "photo_9999999999999999999x1_1.jpg".data =
      Except.ok (ImageResult.mk 0 0
        ("https://s3-url/".data ++ "photo_9999999999999999999x1_1.jpg".data)) :=
  ⟨C10_amended_get_image_info.2.1 "photo_800x600_5.jpg".data "800".data "600".data
    (by decide) (by decide) (by decide) (by decide) (by decide) (by decide)
    (by decide) (by decide) (by decide) (by decide),
  C10_amended_get_image_info.2.2.2.2.2 "photo_9999999999999999999x1_1.jpg".data
    "9999999999999999999".data "1".data
    (by decide) (by decide) (by decide) (by decide) (by decide) (by decide)
    (by decide)⟩
